import Mathlib

/-!
Verification of the `wirables` discrete-event-simulation core against its
specification.

This file shallowly embeds the parts of the sources that the checked
properties depend on:

* `src/lib/desim/event.py` : `EventTime` (time + priority, with its ordering)
  and the event records handled by the sequencer.  Python floats are modelled
  as rationals (all values appearing in the properties are exactly
  representable), Python ints as integers.
* `src/lib/wirables/sequencer.py` : `Sequencer._sort` (Python's `sorted` with
  key `event.time`, i.e. the stable sort under `EventTime.__lt__`) and
  `Sequencer.run`.  Event callbacks are modelled as opaque identifiers; the
  events a callback returns are supplied by an environment function
  `act : Event → List Event`.  The `while` loop is driven by explicit fuel;
  `verbose` printing and the `period` sugar (which only precomputes `stop`
  before the loop) are not modelled.
* `src/lib/desim/signal.py` : `SignalConnection` (a `@dataclass`, hence
  compared by field value), `Signal.update`, `Signal.connect` (including the
  exact Python slice-assignment semantics of
  `connected_clients[index:index] = [connection]`) and `Signal.disconnect`.
* `src/lib/wirables/device.py` : the hook tables (`dict`s modelled as
  insertion-ordered association lists), `Device.hook`, `Device.unhook` (by
  name), `Device._run_with_hooks`, `Device.xto` (including the in-place
  `given_states += [new_state]` list aliasing), the action-name resolution
  loop of `Device.act`, and the input/action wrapper produced by
  `Device._wrap_functype`.
-/

/-! ## EventTime (src/lib/desim/event.py, class EventTime) -/

/-- Source class `EventTime`: a simulated-time point `time` (Python float, modelled as ℚ)
with a secondary `priority` (Python int, modelled as ℤ). -/
structure EventTime where
  time : ℚ
  priority : ℤ
deriving DecidableEq, Repr

/-- Ordering `EventTime.__lt__`: `t1 < t2 or (t1 == t2 and p1 > p2)`. -/
def EventTime.lt (a b : EventTime) : Prop :=
  a.time < b.time ∨ (a.time = b.time ∧ b.priority < a.priority)

instance : DecidableRel EventTime.lt := fun a b =>
  decidable_of_iff (a.time < b.time ∨ (a.time = b.time ∧ b.priority < a.priority)) Iff.rfl

theorem EventTime.lt_irrefl (a : EventTime) : ¬ EventTime.lt a a := by
  rintro (h | ⟨-, h⟩)
  · exact absurd h (not_lt.mpr le_rfl)
  · exact absurd h (not_lt.mpr le_rfl)

theorem EventTime.lt_asymm {a b : EventTime}
    (h1 : EventTime.lt a b) (h2 : EventTime.lt b a) : False := by
  rcases h1 with h1 | ⟨he1, hp1⟩ <;> rcases h2 with h2 | ⟨he2, hp2⟩
  · exact absurd h2 (not_lt.mpr h1.le)
  · rw [he2] at h1; exact absurd h1 (not_lt.mpr le_rfl)
  · rw [he1] at h2; exact absurd h2 (not_lt.mpr le_rfl)
  · exact absurd hp2 (not_lt.mpr hp1.le)

/-- The relation `not lt` (which Python's `@total_ordering` uses for `>=`/`<=`) is
transitive: it is the lexicographic order on `(time, -priority)`. -/
theorem EventTime.not_lt_trans {a b c : EventTime}
    (h1 : ¬ EventTime.lt b a) (h2 : ¬ EventTime.lt c b) : ¬ EventTime.lt c a := by
  simp only [EventTime.lt, not_or, not_and, not_lt] at h1 h2 ⊢
  obtain ⟨ht1, hp1⟩ := h1
  obtain ⟨ht2, hp2⟩ := h2
  refine ⟨le_trans ht1 ht2, fun he => ?_⟩
  have hba : b.time = a.time := le_antisymm (he ▸ ht2) ht1
  have hcb : c.time = b.time := by rw [he, ← hba]
  exact le_trans (hp2 hcb) (hp1 hba)

/-! ## EventValue (src/lib/desim/event.py, class EventValue) -/

/-- Source class `EventValue`: a tagged carrier for an int, float or string payload.
(The Python cross-type numeric equality `0 == 0.0` is not needed by any
checked property, so the payload kinds are kept distinct here.) -/
inductive EventValue where
  | intVal : ℤ → EventValue
  | floatVal : ℚ → EventValue
  | strVal : String → EventValue
deriving DecidableEq, Repr

/-- Constant `SIG_UNDEFINED = EventValue("<undefined-value>")` (src/lib/desim/signal.py). -/
def SIG_UNDEFINED : EventValue := .strVal "<undefined-value>"

/-- Constant `SIG_ZERO = EventValue(0)` (src/lib/desim/signal.py). -/
def SIG_ZERO : EventValue := .intVal 0

/-- Constant `SIG_START_DEFAULT = SIG_ZERO` (src/lib/desim/signal.py). -/
def SIG_START_DEFAULT : EventValue := SIG_ZERO

/-! ## Event and the lazy sort of the sequencer queue -/

/-- A queued `Event` (src/lib/desim/event.py, class Event): its `time`, with
the callback (and its bound value/context) abstracted into an opaque
identifier `id`.  `Event.action()` is modelled by the environment function
`act` given to `Sequencer.run`. -/
structure Event where
  time : EventTime
  id : Nat
deriving DecidableEq, Repr

/-- The non-strict comparison under which Python's stable `sorted(...,
key=lambda event: event.time)` orders the queue: `a` may stay before `b`
iff `not (b.time < a.time)`. -/
def eventLE (a b : Event) : Prop := ¬ EventTime.lt b.time a.time

instance : DecidableRel eventLE := fun a b =>
  decidable_of_iff (¬ EventTime.lt b.time a.time) Iff.rfl

instance : IsTotal Event eventLE where
  total a b := by
    by_cases h : EventTime.lt b.time a.time
    · exact Or.inr fun h2 => EventTime.lt_asymm h h2
    · exact Or.inl h

instance : IsTrans Event eventLE where
  trans _ _ _ h1 h2 := EventTime.not_lt_trans h1 h2

/-- Embeds `Sequencer._sort` (src/lib/wirables/sequencer.py):
`self._events = sorted(self._events, key=lambda event: event.time)`.
Python's `sorted` is the stable sort under the key's `__lt__`; the stable
sort is embedded as `List.insertionSort` under `eventLE`. -/
def sortEvents (l : List Event) : List Event := l.insertionSort eventLE

/-! ## Sequencer (src/lib/wirables/sequencer.py) -/

/-- The sequencer state: pending `events` and the current `time`
(initially `EventTime(0.0)`). -/
structure Sequencer where
  events : List Event
  time : EventTime
deriving DecidableEq, Repr

/-- Why a `run` ended: the `backwards step` ValueError, the `stop`-time halt,
the step-budget halt, the empty-queue halt (also covering entry with an empty
queue), or exhaustion of the loop fuel of the model. -/
inductive HaltReason where
  | backwards
  | stopTime
  | stepsDone
  | queueEmpty
  | fuelOut
deriving DecidableEq, Repr

/-- The outcome of a `run`: the final sequencer state, the events whose
callbacks were invoked (`event.action()`), in invocation order, and the halt
reason. -/
structure RunResult where
  seq : Sequencer
  dispatched : List Event
  reason : HaltReason
deriving DecidableEq, Repr

/-- Test `self.time >= stop_time` — `@total_ordering` derives `>=` from `__lt__`
as `not (self.time < stop_time)`. -/
def stopReached (stop : Option EventTime) (t : EventTime) : Bool :=
  match stop with
  | none => false
  | some st => !(decide (EventTime.lt t st))

/-- The `while self._events:` loop of `Sequencer.run`.  Each iteration:
sort; take the head; raise on a backwards step; advance `self.time`; halt on
`stop`; decrement and halt on the step budget; otherwise invoke the callback
(`act event`), merge the returned events after the remaining queue, and halt
if the queue became empty.  On the `stop`/steps halts and on the backwards
error, `self._events` is the full sorted list (only `_sort` has assigned it);
after an execution it is the tail plus the new events. -/
def Sequencer.runLoop (act : Event → List Event) (stop : Option EventTime) :
    Int → Nat → Sequencer → List Event → RunResult
  | _, 0, s, tr => ⟨s, tr, .fuelOut⟩
  | haltSteps, fuel + 1, s, tr =>
    match sortEvents s.events with
    | [] => ⟨s, tr, .queueEmpty⟩
    | event :: rest =>
      if EventTime.lt event.time s.time then ⟨⟨event :: rest, s.time⟩, tr, .backwards⟩
      else if stopReached stop event.time then ⟨⟨event :: rest, event.time⟩, tr, .stopTime⟩
      else if haltSteps = 0 then ⟨⟨event :: rest, event.time⟩, tr, .stepsDone⟩
      else
        let haltSteps2 : Int := if 0 ≤ haltSteps then haltSteps - 1 else haltSteps
        let events2 := rest ++ act event
        let tr2 := tr ++ [event]
        if events2 = [] then ⟨⟨events2, event.time⟩, tr2, .queueEmpty⟩
        else Sequencer.runLoop act stop haltSteps2 fuel ⟨events2, event.time⟩ tr2

/-- The `halt_steps` initialisation of `Sequencer.run`: `-1` when `steps` is
`None` (so the budget never triggers), else `int(steps)`. -/
def stepsToHalt (steps : Option Nat) : Int :=
  match steps with
  | none => -1
  | some n => (n : Int)

/-- Embeds `Sequencer.run(steps=None, stop=None)`. -/
def Sequencer.run (act : Event → List Event) (steps : Option Nat)
    (stop : Option EventTime) (fuel : Nat) (s : Sequencer) : RunResult :=
  Sequencer.runLoop act stop (stepsToHalt steps) fuel s []

/-- The environment for plain seed events whose callbacks schedule nothing. -/
def noNewEvents : Event → List Event := fun _ => []

/-! ## Signal (src/lib/desim/signal.py) -/

/-- Source class `SignalConnection` — a `@dataclass(call, call_context)`.  A Python
dataclass compares by field value, so this structure's `DecidableEq` models
`SignalConnection.__eq__` exactly: the `call` field (a function object,
compared by identity) is an opaque identifier, and `call_context` (compared
by `==`) is an optional opaque value. -/
structure SignalConnection where
  call : Nat
  call_context : Option Nat
deriving DecidableEq, Repr

/-- A `Signal`'s state: `name`, `value`, `previous_value` (initially
`SIG_UNDEFINED`) and the ordered `connected_clients` list. -/
structure Signal where
  name : String
  value : EventValue
  previous_value : EventValue
  connected_clients : List SignalConnection
deriving DecidableEq, Repr

/-- Constructor `Signal.__init__(name, start_value=SIG_START_DEFAULT)`. -/
def Signal.init (name : String) (start_value : EventValue := SIG_START_DEFAULT) : Signal :=
  ⟨name, start_value, SIG_UNDEFINED, []⟩

/-- One callback invocation `connection.call(time, value, connection.call_context)`
made by `Signal.update`. -/
structure SignalCall where
  call : Nat
  time : EventTime
  value : EventValue
  call_context : Option Nat
deriving DecidableEq, Repr

/-- Embeds `Signal.update(time, value)`: sets `previous_value` to the old value and
`value` to the new one, then calls each connection in list order.  The
callbacks are opaque here, so the model returns the invocation sequence; the
concatenation of events the callbacks return (`further_events`) is not
observed by any checked property. -/
def Signal.update (s : Signal) (time : EventTime) (value : EventValue) :
    Signal × List SignalCall :=
  ({ s with previous_value := s.value, value := value },
   s.connected_clients.map fun c => ⟨c.call, time, value, c.call_context⟩)

/-- The effective position of Python's slice assignment
`lst[index:index] = [x]` on a list of length `n`: a negative `index` is
offset by `n` and clamped at `0`; a non-negative one is clamped at `n`. -/
def pySliceIndex (n : Nat) (index : Int) : Nat :=
  if index < 0 then ((n : Int) + index).toNat else min index.toNat n

/-- Insert `a` at position `n` (Python `lst[n:n] = [a]` for resolved `n`). -/
def insertAt (l : List α) (n : Nat) (a : α) : List α :=
  l.take n ++ a :: l.drop n

/-- Embeds `Signal.connect(call, call_context=None, index=-1)`: builds the new
`SignalConnection`, and — `if connection not in self.connected_clients` (a
value-equality test, since `SignalConnection` is a dataclass) — inserts it by
`self.connected_clients[index:index] = [connection]`.  The connection is
returned in either case. -/
def Signal.connect (s : Signal) (call : Nat) (call_context : Option Nat := none)
    (index : Int := -1) : Signal × SignalConnection :=
  let connection : SignalConnection := ⟨call, call_context⟩
  if connection ∈ s.connected_clients then (s, connection)
  else
    ({ s with connected_clients :=
        insertAt s.connected_clients (pySliceIndex s.connected_clients.length index) connection },
     connection)

/-- Embeds `Signal.disconnect(connection)`: removes every value-equal occurrence
(`while connection in self.connected_clients: ... remove(connection)`). -/
def Signal.disconnect (s : Signal) (connection : SignalConnection) : Signal :=
  { s with connected_clients :=
      s.connected_clients.filter fun c => !(decide (c = connection)) }

/-! ## Device (src/lib/wirables/device.py)

Python `dict`s (insertion-ordered, string-keyed) are modelled as association
lists with the helpers below, which reproduce `d.get`, `d[k] = v`,
`d.setdefault(k, []).append(x)` and `d.pop(k)` (the latter raising `KeyError`
when the key is absent). -/

/-- Lookup `d.get(k)` on an insertion-ordered dict. -/
def dictGet (d : List (String × α)) (k : String) : Option α :=
  (d.find? fun p => p.1 == k).map (fun p => p.2)

/-- Assignment `d[k] = v`: replaces in place, or appends the new key at the end. -/
def dictSet (d : List (String × α)) (k : String) (v : α) : List (String × α) :=
  match d with
  | [] => [(k, v)]
  | (k1, v1) :: rest => if k1 == k then (k, v) :: rest else (k1, v1) :: dictSet rest k v

/-- Removal `d.pop(k)` with no default: `none` models the `KeyError` on a missing
key; otherwise returns the value and the dict without the key. -/
def dictPop (d : List (String × α)) (k : String) : Option (α × List (String × α)) :=
  match dictGet d k with
  | none => none
  | some v => some (v, d.filter fun p => !(p.1 == k))

/-- The device state: its identity and state-machine fields, the declared
input/action method names (the keys of the `inputs` / `actions` properties),
the `outputs` dict of owned Signals, the three hook tables, the deferred
event buffer `further_acts` and the `current_time` re-entrancy guard.
(`timings` is not carried: no checked property mentions it.) -/
structure DeviceState where
  name : String
  STATES : List String
  state : String
  inputNames : List String
  actionNames : List String
  outputs : List (String × Signal)
  prehooks : List (String × List SignalConnection)
  posthooks : List (String × List SignalConnection)
  output_hooks : List (String × List SignalConnection)
  further_acts : List Event
  current_time : Option EventTime
deriving DecidableEq, Repr

/-- Embeds `Device.all_eventcall_names`:
`["act", "out", "xto"] + inputs.keys() + actions.keys()`. -/
def DeviceState.all_eventcall_names (d : DeviceState) : List String :=
  ["act", "out", "xto"] ++ d.inputNames ++ d.actionNames

/-- Embeds `Device.hook(name, call, context=None, call_after=False)`.

If `name` is an output: connect to the Signal at index `-1` (post) or `0`
(pre) and append the handle to `_output_hooks[name]`.  The wrapped context
dict `{"call_context": None, "hook_context": context}` is modelled by the
bare `context` (the wrapping is a value-preserving bijection, so the
dataclass equality used by `connect`'s duplicate test is unchanged).

Otherwise `name` must be in `all_eventcall_names`; for a name in
`["act", "update", "out"]` (the literal list in the source) `call_after` is
forced to `False`; the connection is appended to `_posthooks[name]` or
`_prehooks[name]` via `setdefault(name, []).append(...)`. -/
def DeviceState.hook (d : DeviceState) (name : String) (call : Nat)
    (context : Option Nat := none) (call_after : Bool := false) :
    Except String (DeviceState × SignalConnection) :=
  match dictGet d.outputs name with
  | some sig =>
    let hooklist := (dictGet d.output_hooks name).getD []
    let index : Int := if call_after then -1 else 0
    let (sig2, new_hook) := sig.connect call context index
    .ok ({ d with
            outputs := dictSet d.outputs name sig2,
            output_hooks := dictSet d.output_hooks name (hooklist ++ [new_hook]) },
         new_hook)
  | none =>
    if name ∈ d.all_eventcall_names then
      let call_after2 := if name ∈ (["act", "update", "out"] : List String) then false
        else call_after
      let new_hook : SignalConnection := ⟨call, context⟩
      if call_after2 then
        .ok ({ d with posthooks :=
                dictSet d.posthooks name ((dictGet d.posthooks name).getD [] ++ [new_hook]) },
             new_hook)
      else
        .ok ({ d with prehooks :=
                dictSet d.prehooks name ((dictGet d.prehooks name).getD [] ++ [new_hook]) },
             new_hook)
    else .error ("Unrecognised hook name: " ++ name)

/-- Embeds `Device.unhook(name)` (the by-name branch): for each of `_prehooks`,
`_posthooks`, `_output_hooks` in that order, `hooklist = hookset.pop(name)` —
a `KeyError` (modelled as `.error`) if the name is not a key of that table —
and for a non-empty popped output-hook list, each hook is disconnected from
`outputs.get(name)` when that output exists.  (On a `KeyError` the pops
already performed persist in Python; no checked property observes that
partial state, so only the error is returned.) -/
def DeviceState.unhook (d : DeviceState) (name : String) : Except String DeviceState :=
  match dictPop d.prehooks name with
  | none => .error ("KeyError: " ++ name)
  | some (_, pre2) =>
    match dictPop d.posthooks name with
    | none => .error ("KeyError: " ++ name)
    | some (_, post2) =>
      match dictPop d.output_hooks name with
      | none => .error ("KeyError: " ++ name)
      | some (hooklist, out2) =>
        let d2 := { d with prehooks := pre2, posthooks := post2, output_hooks := out2 }
        if hooklist ≠ [] then
          match dictGet d.outputs name with
          | none => .ok d2
          | some sig =>
            let sig2 := hooklist.foldl (fun s h => s.disconnect h) sig
            .ok { d2 with outputs := dictSet d2.outputs name sig2 }
        else .ok d2

/-- One step of the observable call sequence produced by
`Device._run_with_hooks`. -/
inductive TraceStep where
  | hookCall : SignalConnection → TraceStep
  | operation : TraceStep
deriving DecidableEq, Repr

/-- Embeds `Device._run_with_hooks(name, ...)`: the pre-hooks of `name` are called
in list order, then the wrapped operation runs (`yield`), then the
post-hooks of `name`.  Hook callbacks are opaque, so the model returns the
call sequence around the operation marker. -/
def DeviceState.run_with_hooks (d : DeviceState) (name : String) : List TraceStep :=
  (((dictGet d.prehooks name).getD []).map TraceStep.hookCall) ++
    [TraceStep.operation] ++
    (((dictGet d.posthooks name).getD []).map TraceStep.hookCall)

/-- Embeds `Device.xto(current_state_s, new_state=None)`.

The caller's handler name — discovered in the source by walking
`inspect.stack()` for a frame whose `self` is this device and whose function
is in `all_eventcall_names` — is passed explicitly as `caller_funcname`.

Faithfully modelled details:
* `current_states = [current_state_s]` for a single name, else the given list;
* `given_states = current_states` then `given_states += [new_state]` — an
  in-place append on the *same* list object, so **both** the valid-state loop
  and the current-state membership test see `new_state` appended;
* the valid-state loop sets `msg` for the first name not in `STATES`; the
  current-state test then *overwrites* `msg` (it is a plain `if`, not
  `elif`);
* on a non-empty `msg`, `ValueError(msg)` is raised and `state` is untouched;
  otherwise `state = new_state` is assigned (when given) inside
  `_run_with_hooks("xto", ...)` (the hook invocations themselves are
  side-effect-free in this model and are reported by `run_with_hooks`). -/
def DeviceState.xto (d : DeviceState) (caller_funcname : String)
    (current_state_s : String ⊕ List String) (new_state : Option String) :
    Except String DeviceState :=
  match d.current_time with
  | none => .error (d.name ++ ".xto not called from input/action/act/out.")
  | some _ =>
    let current_states0 :=
      match current_state_s with
      | .inl s => [s]
      | .inr l => l
    let given_states := current_states0 ++ (match new_state with
      | none => []
      | some ns => [ns])
    let current_states := given_states
    let caller_name := d.name ++ "." ++ caller_funcname
    let msg0 :=
      match given_states.find? (fun st => !(decide (st ∈ d.STATES))) with
      | some st =>
        "State " ++ st ++ " in args of " ++ d.name ++ ".xto is not a valid state. " ++
          "Called from " ++ caller_name ++ " method."
      | none => ""
    let msg :=
      if d.state ∈ current_states then msg0
      else
        "Current state " ++ d.state ++ " in " ++ d.name ++ ".xto, called from " ++
          caller_name ++ " method, is not one of the expected states."
    if msg ≠ "" then .error msg
    else .ok (match new_state with | some ns => { d with state := ns } | none => d)

/-- The name-resolution loop of `Device.act` for a string argument:
`for prefix in ("act_", "act", ""): action = self.actions.get(prefix +
action_or_name); if action is not None: break` — the first hit wins. -/
def DeviceState.actResolve (d : DeviceState) (action_name : String) : Option String :=
  ((["act_", "act", ""].map fun p => p ++ action_name).find?
    fun n => decide (n ∈ d.actionNames))

/-- The resolution order the specification asserts for `Device.act`: first
`<name>`, then `act<name>`, then `act_<name>`.  Modelled from the spec for
comparison with `DeviceState.actResolve` (the embedding of the source). -/
def actResolveSpecOrder (d : DeviceState) (action_name : String) : Option String :=
  ((["", "act", "act_"].map fun p => p ++ action_name).find?
    fun n => decide (n ∈ d.actionNames))

/-! ## The input/action wrapper (src/lib/wirables/device.py, `Device._wrap_functype`) -/

/-- The outcome of invoking a device handler (or the whole wrapper): the
device state afterwards, the exception that propagated (if any), and the
returned events.  Python exceptions do not roll state back, so the state is
carried alongside the exception. -/
structure CallOutcome where
  dev : DeviceState
  exn : Option String
  events : List Event
deriving Repr

/-- The message of the failed `assert self._current_time is None` at the top
of the wrapper. -/
def reentrancyAssertMsg : String := "AssertionError: self._current_time is None"

/-- The `wrapper_call` produced by `Device._wrap_functype`:

1. `assert self._current_time is None` — fails (raises, state untouched)
   when the guard is still set;
2. `self._current_time = EventTime(time)`;
3. the user handler runs inside `_run_with_hooks` (hook callbacks are
   effect-free in this model; argument trimming and value normalization do
   not affect the state and are folded into `inner`); if it raises, the
   exception propagates — steps 4–6 are **skipped**, so `_current_time` is
   left set;
4. returned events are appended to `_further_acts`;
5. `self._current_time = None`;
6. `_further_acts` is drained and returned. -/
def DeviceState.wrapper_call (inner : DeviceState → EventTime → CallOutcome)
    (d : DeviceState) (time : EventTime) : CallOutcome :=
  match d.current_time with
  | some _ => ⟨d, some reentrancyAssertMsg, []⟩
  | none =>
    let d1 := { d with current_time := some time }
    let r := inner d1 time
    match r.exn with
    | some e => ⟨r.dev, some e, []⟩
    | none =>
      let d2 := { r.dev with further_acts := r.dev.further_acts ++ r.events }
      ⟨{ d2 with current_time := none, further_acts := [] }, none, d2.further_acts⟩

/-! ## Sequencer lemmas -/

/-- The dispatch trace accumulator only prefixes the result: a `runLoop`
started with trace `tr` returns the same final state and reason as one
started with an empty trace, with `tr` prefixed to the dispatched list. -/
theorem Sequencer.runLoop_trace (act : Event → List Event) (stop : Option EventTime) :
    ∀ (fuel : Nat) (haltSteps : Int) (s : Sequencer) (tr : List Event),
      Sequencer.runLoop act stop haltSteps fuel s tr =
        ⟨(Sequencer.runLoop act stop haltSteps fuel s []).seq,
         tr ++ (Sequencer.runLoop act stop haltSteps fuel s []).dispatched,
         (Sequencer.runLoop act stop haltSteps fuel s []).reason⟩ := by
  intro fuel
  induction fuel with
  | zero => intro hs s tr; simp [Sequencer.runLoop]
  | succ n ih =>
    intro hs s tr
    simp only [Sequencer.runLoop]
    rcases h : sortEvents s.events with - | ⟨e, rest⟩
    · simp
    · simp only []
      split_ifs with h1 h2 h3 h4 h5
      · simp
      · simp
      · simp
      · simp
      · rw [ih _ _ (tr ++ [e]), ih _ _ ([] ++ [e])]
        simp
      · rw [ih _ _ (tr ++ [e]), ih _ _ ([] ++ [e])]
        simp

/-- Monotone time: along any `run`, every dispatched event's time is `>=` the
sequencer's starting time, and consecutive dispatched events have
non-decreasing times (under the `EventTime` order, i.e. `eventLE`). -/
theorem Sequencer.runLoop_mono (act : Event → List Event) (stop : Option EventTime) :
    ∀ (fuel : Nat) (haltSteps : Int) (s : Sequencer),
      List.Chain' eventLE ((Sequencer.runLoop act stop haltSteps fuel s []).dispatched) ∧
      ∀ e ∈ (Sequencer.runLoop act stop haltSteps fuel s []).dispatched,
        ¬ EventTime.lt e.time s.time := by
  intro fuel
  induction fuel with
  | zero => intro hs s; simp [Sequencer.runLoop]
  | succ n ih =>
    intro hs s
    simp only [Sequencer.runLoop]
    rcases h : sortEvents s.events with - | ⟨e, rest⟩
    · simp
    · simp only []
      split_ifs with h1 h2 h3 h4 h5
      · simp
      · simp
      · simp
      · simp only [List.nil_append]
        refine ⟨List.chain'_singleton e, ?_⟩
        intro x hx
        rw [List.mem_singleton] at hx
        rw [hx]; exact h1
      all_goals
        rw [Sequencer.runLoop_trace act stop n _ _ ([] ++ [e])]
        simp only [List.nil_append, List.singleton_append]
        constructor
        · rw [List.chain'_cons']
          refine ⟨?_, (ih _ ⟨rest ++ act e, e.time⟩).1⟩
          intro y hy
          exact (ih _ ⟨rest ++ act e, e.time⟩).2 y (List.mem_of_mem_head? hy)
        · intro x hx
          rcases List.mem_cons.mp hx with hx | hx
          · rw [hx]; exact h1
          · exact EventTime.not_lt_trans h1 ((ih _ ⟨rest ++ act e, e.time⟩).2 x hx)

/-- Conservation: the dispatched events together with the final queue are a
permutation of the initial queue together with everything the dispatched
callbacks returned.  (In particular nothing leaves the queue except by being
dispatched.) -/
theorem Sequencer.runLoop_conservation (act : Event → List Event) (stop : Option EventTime) :
    ∀ (fuel : Nat) (haltSteps : Int) (s : Sequencer),
      ((Sequencer.runLoop act stop haltSteps fuel s []).dispatched ++
          (Sequencer.runLoop act stop haltSteps fuel s []).seq.events).Perm
        (s.events ++
          ((Sequencer.runLoop act stop haltSteps fuel s []).dispatched.flatMap act)) := by
  intro fuel
  induction fuel with
  | zero => intro hs s; simp [Sequencer.runLoop]
  | succ n ih =>
    intro hs s
    have hperm : ∀ x, sortEvents s.events = x → x.Perm s.events :=
      fun x hx => hx ▸ List.perm_insertionSort eventLE s.events
    simp only [Sequencer.runLoop]
    rcases h : sortEvents s.events with - | ⟨e, rest⟩
    · simp
    · simp only []
      split_ifs with h1 h2 h3 h4 h5
      · simpa using (hperm _ h).append_right []
      · simpa using (hperm _ h).append_right []
      · simpa using (hperm _ h).append_right []
      · obtain ⟨hr, ha⟩ := List.append_eq_nil.mp h4
        subst hr
        simp only [List.nil_append, List.flatMap_cons, List.flatMap_nil, ha,
          List.append_nil]
        exact hperm _ h
      all_goals
        rw [Sequencer.runLoop_trace act stop n _ _ ([] ++ [e])]
        simp only [List.nil_append, List.singleton_append, List.cons_append,
          List.flatMap_cons]
        refine ((ih _ ⟨rest ++ act e, e.time⟩).cons e).trans ?_
        simp only [List.append_assoc]
        rw [← List.cons_append]
        exact (hperm _ h).append_right _

/-- Shape of a `stop`/steps halt: the run broke out *after* `self.time =
next_time` but *before* `event.action()` and before `self._events` was
reassigned, so the triggering event is still the head of the (sorted) queue
and the sequencer time equals its time. -/
theorem Sequencer.runLoop_halt_shape (act : Event → List Event) (stop : Option EventTime) :
    ∀ (fuel : Nat) (haltSteps : Int) (s : Sequencer) (tr : List Event),
      ((Sequencer.runLoop act stop haltSteps fuel s tr).reason = .stopTime ∨
        (Sequencer.runLoop act stop haltSteps fuel s tr).reason = .stepsDone) →
      ∃ e rest,
        (Sequencer.runLoop act stop haltSteps fuel s tr).seq.events = e :: rest ∧
        (Sequencer.runLoop act stop haltSteps fuel s tr).seq.time = e.time := by
  intro fuel
  induction fuel with
  | zero => intro hs s tr hr; simp [Sequencer.runLoop] at hr
  | succ n ih =>
    intro hs s tr hr
    revert hr
    simp only [Sequencer.runLoop]
    rcases h : sortEvents s.events with - | ⟨e, rest⟩
    · intro hr; simp at hr
    · simp only []
      split_ifs with h1 h2 h3 h4 h5
      · intro hr; simp at hr
      · intro _; exact ⟨e, rest, rfl, rfl⟩
      · intro _; exact ⟨e, rest, rfl, rfl⟩
      · intro hr; simp at hr
      · exact ih _ _ _
      · exact ih _ _ _

/-- Draining a sorted queue whose events all lie at or after the current
time, with callbacks that return nothing, dispatches exactly the queue in
order. -/
theorem Sequencer.runLoop_drain :
    ∀ (q : List Event) (t : EventTime) (tr : List Event) (fuel : Nat),
      List.Sorted eventLE q → (∀ e ∈ q, ¬ EventTime.lt e.time t) → q.length ≤ fuel →
      (Sequencer.runLoop noNewEvents none (-1) fuel ⟨q, t⟩ tr).dispatched = tr ++ q := by
  intro q
  induction q with
  | nil =>
    intro t tr fuel _ _ _
    cases fuel with
    | zero => simp [Sequencer.runLoop]
    | succ n => simp [Sequencer.runLoop, sortEvents]
  | cons e rest ih =>
    intro t tr fuel hsort hlow hfuel
    cases fuel with
    | zero => simp at hfuel
    | succ n =>
      obtain ⟨hhead, htail⟩ := List.sorted_cons.mp hsort
      have hq : sortEvents ((⟨e :: rest, t⟩ : Sequencer).events) = e :: rest :=
        hsort.insertionSort_eq
      simp only [Sequencer.runLoop, hq]
      rw [if_neg (hlow e (List.mem_cons_self e rest)), if_neg (by simp [stopReached]),
        if_neg (by decide : ¬ (-1 : Int) = 0)]
      have hact : rest ++ noNewEvents e = rest := by simp [noNewEvents]
      rcases hr : rest with - | ⟨e2, rest2⟩
      · simp [hact, hr, noNewEvents]
      · rw [← hr]
        rw [if_neg (by simp [hact, hr])]
        have := ih e.time (tr ++ [e]) n htail
          (fun x hx => hhead x hx) (by simpa using hfuel)
        rw [hact]
        simpa using this

/-- Inserting into the sort keeps, for each exact `(time, priority)` key, the
same events in the same relative order as prepending: an element skipped over
by the insertion is strictly earlier, hence never shares the key. -/
theorem filter_key_orderedInsert (a : Event) :
    ∀ (l : List Event) (k : EventTime),
      (List.orderedInsert eventLE a l).filter (fun e => decide (e.time = k)) =
        (a :: l).filter (fun e => decide (e.time = k)) := by
  intro l
  induction l with
  | nil => intro k; rfl
  | cons b l ih =>
    intro k
    by_cases hab : eventLE a b
    · rw [List.orderedInsert_of_le _ _ hab]
    · have hlt : EventTime.lt b.time a.time := not_not.mp hab
      have hbody : List.orderedInsert eventLE a (b :: l) =
          b :: List.orderedInsert eventLE a l := by
        simp [List.orderedInsert, hab]
      rw [hbody]
      simp only [List.filter_cons]
      rw [ih k]
      simp only [List.filter_cons]
      by_cases hak : a.time = k <;> by_cases hbk : b.time = k
      · exfalso
        rw [hak] at hlt
        rw [hbk] at hlt
        exact EventTime.lt_irrefl k hlt
      all_goals simp [hak, hbk]

/-- Stability of `Sequencer._sort`: events with equal `time` *and* equal
`priority` keep their original relative order (for each exact key, filtering
the sorted list equals filtering the original list). -/
theorem sortEvents_filter_key :
    ∀ (l : List Event) (k : EventTime),
      (sortEvents l).filter (fun e => decide (e.time = k)) =
        l.filter (fun e => decide (e.time = k)) := by
  intro l
  induction l with
  | nil => intro k; rfl
  | cons a l ih =>
    intro k
    show (List.orderedInsert eventLE a (sortEvents l)).filter _ = _
    rw [filter_key_orderedInsert a (sortEvents l) k]
    simp only [List.filter_cons]
    rw [ih k]

/-- Sorting first is harmless: since each iteration of the loop re-sorts, a
run behaves identically on a pre-sorted queue (for at least one unit of
fuel). -/
theorem Sequencer.runLoop_sort_first (act : Event → List Event) (stop : Option EventTime) :
    ∀ (haltSteps : Int) (fuel : Nat) (s : Sequencer) (tr : List Event),
      Sequencer.runLoop act stop haltSteps (fuel + 1) s tr =
        Sequencer.runLoop act stop haltSteps (fuel + 1) ⟨sortEvents s.events, s.time⟩ tr := by
  intro hs fuel s tr
  obtain ⟨ev, t⟩ := s
  have hidem : sortEvents (sortEvents ev) = sortEvents ev :=
    (List.sorted_insertionSort eventLE ev).insertionSort_eq
  simp only [Sequencer.runLoop]
  rw [hidem]
  rcases h : sortEvents ev with - | ⟨e, rest⟩
  · have hp := List.perm_insertionSort eventLE ev
    rw [show List.insertionSort eventLE ev = sortEvents ev from rfl, h] at hp
    have hev : ev = [] := hp.symm.eq_nil
    rw [hev]
  · rfl

/-- C1.  With no backwards step possible (no queued event sorts before the
sequencer's current time) and callbacks that schedule nothing, `run`
dispatches exactly `sortEvents evs` — which is sorted by
(time ascending, priority descending), is a permutation of the input, and is
stable (per exact `(time, priority)` key the original order is kept).  In
particular, `Event(EventTime(1.0, priority=0), cbA)` added before
`Event(EventTime(1.0, priority=5), cbB)` dispatches `cbB` (id 1) before
`cbA` (id 0). -/
theorem claim1_run_dispatches_stable_sort :
    (∀ (evs : List Event) (t0 : EventTime) (fuel : Nat),
      (∀ e ∈ evs, ¬ EventTime.lt e.time t0) → evs.length ≤ fuel →
      (Sequencer.run noNewEvents none none fuel ⟨evs, t0⟩).dispatched = sortEvents evs ∧
      List.Sorted eventLE (sortEvents evs) ∧
      (sortEvents evs).Perm evs ∧
      (∀ k : EventTime,
        (sortEvents evs).filter (fun e => decide (e.time = k)) =
          evs.filter (fun e => decide (e.time = k)))) ∧
    (Sequencer.run noNewEvents none none 2
        ⟨[⟨⟨1, 0⟩, 0⟩, ⟨⟨1, 5⟩, 1⟩], ⟨0, 0⟩⟩).dispatched
      = [⟨⟨1, 5⟩, 1⟩, ⟨⟨1, 0⟩, 0⟩] := by
  constructor
  · intro evs t0 fuel hlow hfuel
    refine ⟨?_, List.sorted_insertionSort eventLE evs,
      List.perm_insertionSort eventLE evs, sortEvents_filter_key evs⟩
    cases fuel with
    | zero =>
      have : evs.length = 0 := Nat.le_zero.mp hfuel
      have hev : evs = [] := List.length_eq_zero.mp this
      subst hev
      simp [Sequencer.run, Sequencer.runLoop, sortEvents]
    | succ n =>
      show (Sequencer.runLoop noNewEvents none (-1) (n + 1) ⟨evs, t0⟩ []).dispatched = _
      rw [Sequencer.runLoop_sort_first]
      rw [Sequencer.runLoop_drain (sortEvents evs) t0 [] (n + 1)
        (List.sorted_insertionSort eventLE evs)
        (fun e he => hlow e ((List.mem_insertionSort eventLE).mp he))
        (by simpa [sortEvents, List.length_insertionSort] using hfuel)]
      simp
  · have h := Sequencer.runLoop_drain
      (sortEvents [⟨⟨1, 0⟩, 0⟩, ⟨⟨1, 5⟩, 1⟩]) ⟨0, 0⟩ [] 2
      (List.sorted_insertionSort eventLE _) (by decide) (by decide)
    show (Sequencer.runLoop noNewEvents none (-1) 2 _ []).dispatched = _
    rw [show (2 : Nat) = 1 + 1 from rfl, Sequencer.runLoop_sort_first, h]
    decide

/-- Witness for C1: the universally quantified part instantiated at the
priority tie-break scenario S2 (events added as cbA at (1.0, prio 0) then
cbB at (1.0, prio 5), sequencer at time (0.0, 0), fuel 2). -/
theorem claim1_witness :
    (Sequencer.run noNewEvents none none 2
        ⟨[⟨⟨1, 0⟩, 0⟩, ⟨⟨1, 5⟩, 1⟩], ⟨0, 0⟩⟩).dispatched
        = sortEvents [⟨⟨1, 0⟩, 0⟩, ⟨⟨1, 5⟩, 1⟩] ∧
      List.Sorted eventLE (sortEvents [⟨⟨1, 0⟩, 0⟩, ⟨⟨1, 5⟩, 1⟩]) ∧
      (sortEvents [⟨⟨1, 0⟩, 0⟩, ⟨⟨1, 5⟩, 1⟩]).Perm [⟨⟨1, 0⟩, 0⟩, ⟨⟨1, 5⟩, 1⟩] ∧
      (∀ k : EventTime,
        (sortEvents [⟨⟨1, 0⟩, 0⟩, ⟨⟨1, 5⟩, 1⟩]).filter (fun e => decide (e.time = k)) =
          [⟨⟨1, 0⟩, 0⟩, ⟨⟨1, 5⟩, 1⟩].filter (fun e => decide (e.time = k))) :=
  claim1_run_dispatches_stable_sort.1 [⟨⟨1, 0⟩, 0⟩, ⟨⟨1, 5⟩, 1⟩] ⟨0, 0⟩ 2
    (by decide) (by decide)

/-- C3.  When the earliest pending event (head of the sorted queue) has a
time before the sequencer's current time, `run` raises the backwards-step
`ValueError` with nothing dispatched (so that event's callback is not
invoked) and the time unchanged; and, in general, the times of the events a
`run` dispatches never decrease (each is also `>=` the starting time). -/
theorem claim3_backwards_error_and_monotone_time :
    (∀ (act : Event → List Event) (steps : Option Nat) (stop : Option EventTime)
        (fuel : Nat) (s : Sequencer) (e : Event) (rest : List Event),
      sortEvents s.events = e :: rest → EventTime.lt e.time s.time →
      Sequencer.run act steps stop (fuel + 1) s = ⟨⟨e :: rest, s.time⟩, [], .backwards⟩) ∧
    (∀ (act : Event → List Event) (steps : Option Nat) (stop : Option EventTime)
        (fuel : Nat) (s : Sequencer),
      List.Chain' eventLE (Sequencer.run act steps stop fuel s).dispatched ∧
      ∀ e ∈ (Sequencer.run act steps stop fuel s).dispatched,
        ¬ EventTime.lt e.time s.time) := by
  constructor
  · intro act steps stop fuel s e rest h hlt
    show Sequencer.runLoop act stop _ (fuel + 1) s [] = _
    simp only [Sequencer.runLoop, h]
    rw [if_pos hlt]
  · intro act steps stop fuel s
    exact Sequencer.runLoop_mono act stop fuel (stepsToHalt steps) s

/-- Witness for C3: the S5 scenario — sequencer advanced to time 5.0 with a
stale event at time 3.0 — raises backwards with nothing dispatched. -/
theorem claim3_witness :
    Sequencer.run noNewEvents none none 1 ⟨[⟨⟨3, 0⟩, 0⟩], ⟨5, 0⟩⟩ =
      ⟨⟨[⟨⟨3, 0⟩, 0⟩], ⟨5, 0⟩⟩, [], .backwards⟩ :=
  claim3_backwards_error_and_monotone_time.1 noNewEvents none none 0
    ⟨[⟨⟨3, 0⟩, 0⟩], ⟨5, 0⟩⟩ ⟨⟨3, 0⟩, 0⟩ [] (by decide) (by decide)

/-- C10.  When `run` halts for the stop time or the step budget, the
triggering event is still at the head of the queue (it was popped from the
local copy only; `self._events` still holds the sorted list), the sequencer
time has already advanced to that event's time, and — by conservation — the
queue lost only the dispatched events (the halting event was not executed:
executed events are exactly the `dispatched` ones, and the halting event is
still in `seq.events`). -/
theorem claim10_halt_keeps_event_advances_time :
    ∀ (act : Event → List Event) (steps : Option Nat) (stop : Option EventTime)
      (fuel : Nat) (s : Sequencer),
      ((Sequencer.run act steps stop fuel s).reason = .stopTime ∨
        (Sequencer.run act steps stop fuel s).reason = .stepsDone) →
      ∃ e rest,
        (Sequencer.run act steps stop fuel s).seq.events = e :: rest ∧
        (Sequencer.run act steps stop fuel s).seq.time = e.time ∧
        ((Sequencer.run act steps stop fuel s).dispatched ++
            (Sequencer.run act steps stop fuel s).seq.events).Perm
          (s.events ++ (Sequencer.run act steps stop fuel s).dispatched.flatMap act) := by
  intro act steps stop fuel s hr
  obtain ⟨e, rest, he, ht⟩ :=
    Sequencer.runLoop_halt_shape act stop fuel (stepsToHalt steps) s [] hr
  exact ⟨e, rest, he, ht,
    Sequencer.runLoop_conservation act stop fuel (stepsToHalt steps) s⟩

/-- Witness for C10: a single event at time 1.0 and `steps=0`; the run halts
`stepsDone` with the event still queued and the time advanced to 1.0. -/
theorem claim10_witness :
    (Sequencer.run noNewEvents (some 0) none 1 ⟨[⟨⟨1, 0⟩, 0⟩], ⟨0, 0⟩⟩).reason =
        .stepsDone ∧
      ∃ e rest,
        (Sequencer.run noNewEvents (some 0) none 1 ⟨[⟨⟨1, 0⟩, 0⟩], ⟨0, 0⟩⟩).seq.events
            = e :: rest ∧
          (Sequencer.run noNewEvents (some 0) none 1 ⟨[⟨⟨1, 0⟩, 0⟩], ⟨0, 0⟩⟩).seq.time
            = e.time ∧
          ((Sequencer.run noNewEvents (some 0) none 1
                ⟨[⟨⟨1, 0⟩, 0⟩], ⟨0, 0⟩⟩).dispatched ++
              (Sequencer.run noNewEvents (some 0) none 1
                ⟨[⟨⟨1, 0⟩, 0⟩], ⟨0, 0⟩⟩).seq.events).Perm
            ([⟨⟨1, 0⟩, 0⟩] ++
              (Sequencer.run noNewEvents (some 0) none 1
                ⟨[⟨⟨1, 0⟩, 0⟩], ⟨0, 0⟩⟩).dispatched.flatMap noNewEvents) :=
  ⟨by decide,
    claim10_halt_keeps_event_advances_time noNewEvents (some 0) none 1
      ⟨[⟨⟨1, 0⟩, 0⟩], ⟨0, 0⟩⟩ (Or.inr (by decide))⟩

/-! ## Concrete devices used by the device-level checks -/

/-- A minimal device in the shape of the spec's `TrialDevice`: states
`["idle", "changing"]` (current state `"idle"`), one input `in1`, one action
`newdata`, no outputs, no hooks, guard clear. -/
def trialDevice : DeviceState :=
  ⟨"dev", ["idle", "changing"], "idle", ["in1"], ["newdata"], [], [], [], [], [], none⟩

/-- C2.  Starting from a fresh signal, `connect(cbA)` then `connect(cbB)`
(both with the default `index=-1`) leaves the list as `[cbB, cbA]` — the
Python slice assignment `lst[-1:-1] = [connection]` inserts *before* the last
element, it does not append — and the following `update` therefore notifies
cbB (id 1) before cbA (id 0).  This contradicts both the claim and the
source's own docstrings (`connect`: "-1[default] --> last"; `trace`:
"*default* behaviour = insert at end"). -/
theorem claim2_connect_default_index_prepends_before_last :
    (((Signal.init "s1").connect 0 none (-1)).1.connect 1 none (-1)).1.connected_clients
        = [⟨1, none⟩, ⟨0, none⟩] ∧
      ((((Signal.init "s1").connect 0 none (-1)).1.connect 1 none (-1)).1.update ⟨1, 0⟩
          (.intVal 7)).2.map (fun c => c.call) = [1, 0] := by
  exact ⟨by decide, by decide⟩

/-- C4.  The counter-scenario to the xto guard claim: with actual state
`"idle"`, `xto(["changing"], new_state="idle")` raises nothing — the in-place
`given_states += [new_state]` appends `new_state` to the *same* list object
bound to `current_states`, so the membership guard sees
`["changing", "idle"]` and passes.  (Without `new_state`, or with a
`new_state` different from the actual state, the guard raises as the claim
says — second and third conjuncts.) -/
theorem claim4_xto_guard_accepts_aliased_new_state :
    ({ trialDevice with current_time := some ⟨1, 0⟩ } : DeviceState).xto "in1"
        (.inr ["changing"]) (some "idle")
        = .ok { trialDevice with current_time := some ⟨1, 0⟩ } ∧
      (({ trialDevice with current_time := some ⟨1, 0⟩ } : DeviceState).xto "in1"
          (.inr ["changing"]) none).toOption = none ∧
      (({ trialDevice with current_time := some ⟨1, 0⟩ } : DeviceState).xto "in1"
          (.inr ["changing"]) (some "changing")).toOption = none := by
  exact ⟨rfl, rfl, rfl⟩

/-- A device carrying two actions whose names collide under the `act`
prefixing scheme. -/
def prefixClashDevice : DeviceState :=
  { trialDevice with actionNames := ["foo", "act_foo"] }

/-- Counterexample to C5: with actions `foo` and `act_foo` both present,
`Device.act("foo")` resolves to `act_foo` — the loop tries `act_<name>`
first — while the spec's order (`<name>` first) would give `foo`. -/
theorem claim5_counterexample :
    prefixClashDevice.actResolve "foo" = some "act_foo" ∧
      actResolveSpecOrder prefixClashDevice "foo" = some "foo" ∧
      prefixClashDevice.actResolve "foo" ≠ actResolveSpecOrder prefixClashDevice "foo" := by
  exact ⟨by decide, by decide, by decide⟩

/-- C5 (amended).  `Device.act` resolves a string name by trying, in this
order, `act_<name>`, then `act<name>`, then `<name>`, and uses the first that
is a known action of the device. -/
theorem claim5_act_lookup_order :
    ∀ (d : DeviceState) (n : String),
      d.actResolve n =
        if "act_" ++ n ∈ d.actionNames then some ("act_" ++ n)
        else if "act" ++ n ∈ d.actionNames then some ("act" ++ n)
        else if n ∈ d.actionNames then some n
        else none := by
  intro d n
  by_cases h1 : "act_" ++ n ∈ d.actionNames <;>
    by_cases h2 : "act" ++ n ∈ d.actionNames <;>
    by_cases h3 : n ∈ d.actionNames <;>
    simp [DeviceState.actResolve, List.find?, h1, h2, h3]

/-- Counterexample to C6: two `connect` calls with the same callable (id 7)
and the same `call_context` (`None`) leave exactly one connection in the
list — `SignalConnection` is a dataclass, so the `not in` duplicate test
compares by value, and the second, equal connection is rejected. -/
theorem claim6_counterexample :
    (((Signal.init "s1").connect 7 none (-1)).1.connect 7 none (-1)).1.connected_clients
        = [⟨7, none⟩] ∧
      (((Signal.init "s1").connect 7 none (-1)).1.connect 7 none
          (-1)).1.connected_clients.length ≠ 2 := by
  exact ⟨by decide, by decide⟩

/-- C6 (amended).  The duplicate check of `Signal.connect` is value-based
(dataclass field equality on `(call, call_context)`): a connection equal in
value to a stored one is rejected (state unchanged, the equal connection
still returned), while a connection new in value is inserted — exactly once,
growing the list by one.  Distinct `call_context`s (or callables) therefore
still give distinct coexisting connections. -/
theorem claim6_connect_identity_is_value_based :
    ∀ (s : Signal) (call : Nat) (ctx : Option Nat) (index : Int),
      ((⟨call, ctx⟩ : SignalConnection) ∈ s.connected_clients →
        s.connect call ctx index = (s, ⟨call, ctx⟩)) ∧
      ((⟨call, ctx⟩ : SignalConnection) ∉ s.connected_clients →
        (s.connect call ctx index).2 = ⟨call, ctx⟩ ∧
        (⟨call, ctx⟩ : SignalConnection) ∈ (s.connect call ctx index).1.connected_clients ∧
        (s.connect call ctx index).1.connected_clients.length =
          s.connected_clients.length + 1) := by
  intro s call ctx index
  constructor
  · intro hmem
    simp [Signal.connect, hmem]
  · intro hmem
    refine ⟨by simp [Signal.connect, hmem], ?_, ?_⟩
    · simp [Signal.connect, hmem, insertAt]
    · simp only [Signal.connect, if_neg hmem]
      simp [insertAt]
      omega

/-- Witness for C6 (amended): on a signal holding `[(7, None)]`, a repeat
connect of `(7, None)` is rejected, and a connect of `(7, Some 1)` (same
callable, different context) is inserted. -/
theorem claim6_witness :
    ((((Signal.init "s1").connect 7 none (-1)).1.connect 7 none (-1)) =
        (((Signal.init "s1").connect 7 none (-1)).1, ⟨7, none⟩)) ∧
      ((((Signal.init "s1").connect 7 none (-1)).1.connect 7 (some 1) (-1)).2
          = ⟨7, some 1⟩ ∧
        (⟨7, some 1⟩ : SignalConnection) ∈
          (((Signal.init "s1").connect 7 none (-1)).1.connect 7 (some 1)
            (-1)).1.connected_clients ∧
        (((Signal.init "s1").connect 7 none (-1)).1.connect 7 (some 1)
            (-1)).1.connected_clients.length =
          ((Signal.init "s1").connect 7 none (-1)).1.connected_clients.length + 1) :=
  ⟨(claim6_connect_identity_is_value_based ((Signal.init "s1").connect 7 none (-1)).1
      7 none (-1)).1 (by decide),
    (claim6_connect_identity_is_value_based ((Signal.init "s1").connect 7 none (-1)).1
      7 (some 1) (-1)).2 (by decide)⟩

/-- The device obtained by installing an `xto` hook with `call_after=True`
on `trialDevice`. -/
def xtoPostHookedDevice : DeviceState :=
  match trialDevice.hook "xto" 0 none true with
  | .ok (d, _) => d
  | .error _ => trialDevice

/-- Counterexample to C7: `hook("xto", cb, call_after=True)` does *not*
become a pre-hook — the special-case list in the source is
`["act", "update", "out"]`, which omits `"xto"` — so the hook lands in the
post-hook table and `_run_with_hooks` invokes it *after* the operation. -/
theorem claim7_counterexample :
    trialDevice.hook "xto" 0 none true =
        .ok ({ trialDevice with posthooks := [("xto", [⟨0, none⟩])] }, ⟨0, none⟩) ∧
      xtoPostHookedDevice.prehooks = [] ∧
      xtoPostHookedDevice.run_with_hooks "xto" = [.operation, .hookCall ⟨0, none⟩] := by
  exact ⟨rfl, by decide, by decide⟩

/-- C7 (amended).  Of the three pseudo-components, only `"act"` and `"out"`
have `call_after=True` silently demoted to a pre-hook; `"xto"` accepts the
post-hook request, and the hook is appended to the post-hook table (invoked
after the operation by `_run_with_hooks`). -/
theorem claim7_special_pseudo_component_hooks :
    ∀ (d : DeviceState) (call : Nat) (ctx : Option Nat),
      (dictGet d.outputs "act" = none →
        d.hook "act" call ctx true =
          .ok ({ d with
                  prehooks :=
                    dictSet d.prehooks "act"
                      ((dictGet d.prehooks "act").getD [] ++ [⟨call, ctx⟩]) },
               ⟨call, ctx⟩)) ∧
      (dictGet d.outputs "out" = none →
        d.hook "out" call ctx true =
          .ok ({ d with
                  prehooks :=
                    dictSet d.prehooks "out"
                      ((dictGet d.prehooks "out").getD [] ++ [⟨call, ctx⟩]) },
               ⟨call, ctx⟩)) ∧
      (dictGet d.outputs "xto" = none →
        d.hook "xto" call ctx true =
          .ok ({ d with
                  posthooks :=
                    dictSet d.posthooks "xto"
                      ((dictGet d.posthooks "xto").getD [] ++ [⟨call, ctx⟩]) },
               ⟨call, ctx⟩)) := by
  intro d call ctx
  refine ⟨fun h => ?_, fun h => ?_, fun h => ?_⟩ <;>
    simp [DeviceState.hook, DeviceState.all_eventcall_names, h]

/-- Witness for C7 (amended): instantiated on `trialDevice` (which has no
outputs). -/
theorem claim7_witness :
    trialDevice.hook "xto" 1 none true =
      .ok ({ trialDevice with
              posthooks :=
                dictSet trialDevice.posthooks "xto"
                  ((dictGet trialDevice.posthooks "xto").getD [] ++ [⟨1, none⟩]) },
           ⟨1, none⟩) :=
  (claim7_special_pseudo_component_hooks trialDevice 1 none).2.2 rfl

/-- The device obtained by installing one (pre-)hook on `"act"` on
`trialDevice`. -/
def actHookedDevice : DeviceState :=
  match trialDevice.hook "act" 3 none false with
  | .ok (d, _) => d
  | .error _ => trialDevice

/-- C8.  The counter-scenario to the unhook claim: after a single
`hook("act", cb)` the name `"act"` is a key of `_prehooks` only, and
`unhook("act")` raises `KeyError` — `hookset.pop(name)` is called with no
default on all three tables, and `"act"` is missing from `_posthooks`.  So
`unhook` by name does *not* complete without error for a name with at least
one installed hook. -/
theorem claim8_unhook_by_name_raises_keyerror :
    (dictGet actHookedDevice.prehooks "act").getD [] = [⟨3, none⟩] ∧
      dictGet actHookedDevice.posthooks "act" = none ∧
      actHookedDevice.unhook "act" = .error "KeyError: act" := by
  exact ⟨rfl, rfl, rfl⟩

/-- C9.  If the user handler body raises, the wrapper re-raises without
clearing `_current_time`: the final device state is exactly the handler's
(with the guard still set when the handler did not itself touch it), and any
subsequent wrapped input/action invocation on that device fails the entry
assertion `assert self._current_time is None`. -/
theorem claim9_guard_not_cleared_on_exception :
    ∀ (inner : DeviceState → EventTime → CallOutcome) (d : DeviceState)
      (t : EventTime) (e : String),
      d.current_time = none →
      (inner { d with current_time := some t } t).exn = some e →
      (DeviceState.wrapper_call inner d t).exn = some e ∧
      (DeviceState.wrapper_call inner d t).dev =
        (inner { d with current_time := some t } t).dev ∧
      ((inner { d with current_time := some t } t).dev.current_time = some t →
        ∀ (inner2 : DeviceState → EventTime → CallOutcome) (t2 : EventTime),
          DeviceState.wrapper_call inner2 (DeviceState.wrapper_call inner d t).dev t2 =
            ⟨(DeviceState.wrapper_call inner d t).dev, some reentrancyAssertMsg, []⟩) := by
  intro inner d t e h0 h1
  have hcall : DeviceState.wrapper_call inner d t =
      ⟨(inner { d with current_time := some t } t).dev, some e, []⟩ := by
    unfold DeviceState.wrapper_call
    rw [h0]
    simp only []
    rw [h1]
  refine ⟨by rw [hcall], by rw [hcall], ?_⟩
  intro hguard inner2 t2
  rw [hcall]
  unfold DeviceState.wrapper_call
  rw [hguard]

/-- A handler body that raises `"boom"` without touching the device state. -/
def failingHandler : DeviceState → EventTime → CallOutcome :=
  fun d _ => ⟨d, some "boom", []⟩

/-- Witness for C9: the failing handler run through the wrapper on
`trialDevice` at time 1.0, then a second wrapped invocation at time 2.0
failing the entry assertion. -/
theorem claim9_witness :
    DeviceState.wrapper_call failingHandler
        (DeviceState.wrapper_call failingHandler trialDevice ⟨1, 0⟩).dev ⟨2, 0⟩ =
      ⟨(DeviceState.wrapper_call failingHandler trialDevice ⟨1, 0⟩).dev,
       some reentrancyAssertMsg, []⟩ :=
  (claim9_guard_not_cleared_on_exception failingHandler trialDevice ⟨1, 0⟩ "boom"
    rfl rfl).2.2 rfl failingHandler ⟨2, 0⟩
